import Mathlib

/-!
Verification of the collection/aggregation and chaining semantics of the
`@justscale/result` library (TypeScript sources `src/result.ts` and
`src/option.ts`) against its specification.

The library's two-variant discriminated shapes `Result` (`Ok`/`Err`) and
`Option` (`Some`/`None`) are embedded as Lean inductives; the TypeScript
accumulator loops of `collect`, `collectAll` and `partition` become
tail-recursive functions with explicit accumulators that mirror the loop
bodies; throwing code (`unwrap` and friends, `fromTry`/`fromAsync`) is
embedded in `Except`, where `Except.error x` models `throw x`; dynamic
JavaScript values raised into `fromTry`/`fromAsync` are modelled by the
inductive `JSVal`, with `jsString` modelling JavaScript's `String(x)`
conversion; asynchronous streams are modelled as the finite list of
elements a source yields, with the consumers additionally reporting how
many elements they requested, so that early-stopping is observable.

All definitions are placed in the namespace `JS` to avoid clashing with
Lean's own `Option`/`Result`-like types.
-/

namespace JS

/-- `Result<T, E> = Ok<T> | Err<E>` from `src/result.ts`: the tagged union
with an `ok` discriminant; `Ok` holds `value : T`, `Err` holds `error : E`.
The compile-time-only phantom brands have no runtime content and are
omitted. -/
inductive Result (T E : Type) where
  | ok (value : T) : Result T E
  | err (error : E) : Result T E
deriving DecidableEq

/-- `isOk(result)` from `src/result.ts`: the discriminant check
`result.ok === true`. -/
def isOk {T E : Type} : Result T E → Bool
  | .ok _ => true
  | .err _ => false

/-- Specification-side helper: the ordered list of success values of a
sequence of results. -/
def okValuesSpec {T E : Type} : List (Result T E) → List T
  | [] => []
  | .ok v :: rest => v :: okValuesSpec rest
  | .err _ :: rest => okValuesSpec rest

/-- Specification-side helper: the ordered list of failure payloads of a
sequence of results. -/
def errValuesSpec {T E : Type} : List (Result T E) → List E
  | [] => []
  | .ok _ :: rest => errValuesSpec rest
  | .err e :: rest => e :: errValuesSpec rest

/-- Specification-side helper: every element of the sequence is `Ok`. -/
def allOk {T E : Type} (rs : List (Result T E)) : Bool :=
  rs.all isOk

/-- The loop of `Result.collect` from `src/result.ts`: `values` is the
accumulator array built by `values.push(result.value)`; on the first
element with `!isOk(result)` the loop returns that `Err` unchanged. -/
def collectGo {T E : Type} (values : List T) : List (Result T E) → Result (List T) E
  | [] => .ok values
  | r :: rest =>
    match r with
    | .err e => .err e
    | .ok v => collectGo (values ++ [v]) rest

/-- `Result.collect(results)` from `src/result.ts`: fail-fast collection,
starting from an empty accumulator. -/
def Result.collect {T E : Type} (results : List (Result T E)) : Result (List T) E :=
  collectGo [] results

/-- The loop of `Result.collectAll` from `src/result.ts`: `values` and
`errors` are the two accumulator arrays; after the loop the function
returns `err(errors)` when `errors.length > 0`, else `ok(values)`. -/
def collectAllGo {T E : Type} (values : List T) (errors : List E) :
    List (Result T E) → Result (List T) (List E)
  | [] => if errors.length > 0 then .err errors else .ok values
  | r :: rest =>
    match r with
    | .err e => collectAllGo values (errors ++ [e]) rest
    | .ok v => collectAllGo (values ++ [v]) errors rest

/-- `Result.collectAll(results)` from `src/result.ts`: error-accumulating
collection. The branded `Accumulated<E>` carries no runtime data beyond
the ordered `E[]`, so it is embedded as `List E`. -/
def Result.collectAll {T E : Type} (results : List (Result T E)) :
    Result (List T) (List E) :=
  collectAllGo [] [] results

/-- The record `{ ok: T[]; err: E[] }` returned by `Result.partition`. -/
structure Partitioned (T E : Type) where
  ok : List T
  err : List E
deriving DecidableEq

/-- The loop of `Result.partition` from `src/result.ts`: each element is
pushed onto `okValues` or `errValues` according to `isOk`. -/
def partitionGo {T E : Type} (okValues : List T) (errValues : List E) :
    List (Result T E) → Partitioned T E
  | [] => ⟨okValues, errValues⟩
  | r :: rest =>
    match r with
    | .ok v => partitionGo (okValues ++ [v]) errValues rest
    | .err e => partitionGo okValues (errValues ++ [e]) rest

/-- `Result.partition(results)` from `src/result.ts`. -/
def Result.partition {T E : Type} (results : List (Result T E)) : Partitioned T E :=
  partitionGo [] [] results

/-- The `ResultChain<T, E>` wrapper class from `src/result.ts`: a
single-field holder of one `Result` (the private `#data` field). -/
structure ResultChain (T E : Type) where
  data : Result T E
deriving DecidableEq

/-- `ResultChain.from(result)` from `src/result.ts` (`from` is a reserved
word in Lean, hence the name). -/
def ResultChain.fromResult {T E : Type} (result : Result T E) : ResultChain T E :=
  ⟨result⟩

/-- `ResultChain.prototype.toResult()` from `src/result.ts`. -/
def ResultChain.toResult {T E : Type} (c : ResultChain T E) : Result T E :=
  c.data

/-- `ResultChain.prototype.map(fn)` from `src/result.ts`: applies `fn` to
the success value; on `Err` it returns `this` unchanged (same held
container, `fn` not invoked). -/
def ResultChain.map {T E U : Type} (c : ResultChain T E) (fn : T → U) : ResultChain U E :=
  match c.data with
  | .ok v => ⟨.ok (fn v)⟩
  | .err e => ⟨.err e⟩

/-- `ResultChain.prototype.mapErr(fn)` from `src/result.ts`. -/
def ResultChain.mapErr {T E F : Type} (c : ResultChain T E) (fn : E → F) : ResultChain T F :=
  match c.data with
  | .ok v => ⟨.ok v⟩
  | .err e => ⟨.err (fn e)⟩

/-- `ResultChain.prototype.flatMap(fn)` from `src/result.ts`: on `Ok(v)`
returns a wrapper over `fn(v)`; on `Err` it returns `this` unchanged. The
TypeScript error type is the union `E | F`; at the value level the error
payload is carried through untouched, so the embedding uses a single
error type. -/
def ResultChain.flatMap {T E U : Type} (c : ResultChain T E) (fn : T → Result U E) :
    ResultChain U E :=
  match c.data with
  | .ok v => ⟨fn v⟩
  | .err e => ⟨.err e⟩

/-- Call-counting instrumentation of `ResultChain.prototype.map`: the same
branch structure as the source, threading a counter that is bumped exactly
where the source invokes `fn`. -/
def ResultChain.mapTraced {T E U : Type} (c : ResultChain T E) (fn : T → U) (calls : Nat) :
    ResultChain U E × Nat :=
  match c.data with
  | .ok v => (⟨.ok (fn v)⟩, calls + 1)
  | .err e => (⟨.err e⟩, calls)

/-- Call-counting instrumentation of `ResultChain.prototype.flatMap`. -/
def ResultChain.flatMapTraced {T E U : Type} (c : ResultChain T E) (fn : T → Result U E)
    (calls : Nat) : ResultChain U E × Nat :=
  match c.data with
  | .ok v => (⟨fn v⟩, calls + 1)
  | .err e => (⟨.err e⟩, calls)

/-- One step of a fluent chain: a `map` or a `flatMap` call with its
function argument (types kept uniform so steps can be sequenced in a
list). -/
inductive Step (T E : Type) where
  | mapStep (fn : T → T)
  | flatMapStep (fn : T → Result T E)

/-- Run one chain step with the call counter. -/
def runStep {T E : Type} (c : ResultChain T E) (calls : Nat) :
    Step T E → ResultChain T E × Nat
  | .mapStep fn => c.mapTraced fn calls
  | .flatMapStep fn => c.flatMapTraced fn calls

/-- Run a whole fluent chain of `map`/`flatMap` calls, counting every
invocation of a transformation function. -/
def runChain {T E : Type} (c : ResultChain T E) (calls : Nat) :
    List (Step T E) → ResultChain T E × Nat
  | [] => (c, calls)
  | s :: rest =>
    let p := runStep c calls s
    runChain p.1 p.2 rest

/-- `ResultChain.prototype.unwrap()` from `src/result.ts`, with `throw x`
embedded as `Except.error x`: on `Err` the held error value itself is
thrown (`throw this.#data.error`), not a wrapping error. -/
def ResultChain.unwrap {T E : Type} (c : ResultChain T E) : Except E T :=
  match c.data with
  | .ok v => .ok v
  | .err e => .error e

/-- `ResultChain.prototype.unwrapOr(defaultValue)` from `src/result.ts`;
its body contains no `throw`, so the embedding is a total function. -/
def ResultChain.unwrapOr {T E : Type} (c : ResultChain T E) (defaultValue : T) : T :=
  match c.data with
  | .ok v => v
  | .err _ => defaultValue

/-- `ResultChain.prototype.unwrapOrElse(fn)` from `src/result.ts`; total,
no `throw` in the body. -/
def ResultChain.unwrapOrElse {T E : Type} (c : ResultChain T E) (fn : E → T) : T :=
  match c.data with
  | .ok v => v
  | .err e => fn e

/-- `Option<T> = Some<T> | None` from `src/option.ts`: the tagged union
with a `some` discriminant; `Some` holds `value : T`, `None` holds no
payload (the runtime `NONE` singleton is the unique value of the `none`
constructor). -/
inductive Option (T : Type) where
  | some (value : T) : Option T
  | none : Option T
deriving DecidableEq

/-- `some(value)` from `src/option.ts`. -/
def some {T : Type} (value : T) : Option T :=
  .some value

/-- `none()` from `src/option.ts` (returns the shared `NONE` instance). -/
def none {T : Type} : Option T :=
  .none

/-- `isSome(option)` from `src/option.ts`: the discriminant check
`option.some === true`. -/
def isSome {T : Type} : Option T → Bool
  | .some _ => true
  | .none => false

/-- The `OptionChain<T>` wrapper class from `src/option.ts`. -/
structure OptionChain (T : Type) where
  data : Option T
deriving DecidableEq

/-- `OptionChain.from(option)` from `src/option.ts`. -/
def OptionChain.fromOption {T : Type} (option : Option T) : OptionChain T :=
  ⟨option⟩

/-- `OptionChain.prototype.unwrap()` from `src/option.ts`, with `throw`
embedded as `Except.error`: on `None` it throws
`new Error("Attempted to unwrap None")`, a fixed generic message, here
modelled by its message string. -/
def OptionChain.unwrap {T : Type} (c : OptionChain T) : Except String T :=
  match c.data with
  | .some v => .ok v
  | .none => .error "Attempted to unwrap None"

/-- `OptionChain.prototype.unwrapOr(defaultValue)` from `src/option.ts`;
total, no `throw` in the body. -/
def OptionChain.unwrapOr {T : Type} (c : OptionChain T) (defaultValue : T) : T :=
  match c.data with
  | .some v => v
  | .none => defaultValue

/-- `OptionChain.prototype.unwrapOrElse(fn)` from `src/option.ts` (`fn`
takes no argument, since `None` has no payload); total, no `throw`. -/
def OptionChain.unwrapOrElse {T : Type} (c : OptionChain T) (fn : Unit → T) : T :=
  match c.data with
  | .some v => v
  | .none => fn ()

/-- Dynamic JavaScript values as they appear at the `catch` boundary of
`Result.fromTry` / `Result.fromAsync`: the primitives relevant to the
coercion rule plus `Error` instances, identified by their `message`. -/
inductive JSVal where
  | undef : JSVal
  | null : JSVal
  | num (n : Int) : JSVal
  | str (s : String) : JSVal
  | bool (b : Bool) : JSVal
  | errObj (message : String) : JSVal
deriving DecidableEq

/-- JavaScript's `e instanceof Error` test on the modelled values: only an
`Error` instance satisfies it. -/
def instanceOfError : JSVal → Bool
  | .errObj _ => true
  | _ => false

/-- JavaScript's `String(x)` conversion on the modelled values:
`String(undefined) = "undefined"`, `String(null) = "null"`, numbers and
booleans print canonically, strings pass through, and
`String(new Error(m)) = "Error: " + m`. -/
def jsString : JSVal → String
  | .undef => "undefined"
  | .null => "null"
  | .num n => toString n
  | .str s => s
  | .bool b => if b then "true" else "false"
  | .errObj m => "Error: " ++ m

/-- The `message` property of an `Error` instance (`""` on the non-Error
values, where JavaScript would give `undefined`). -/
def errMessage : JSVal → String
  | .errObj m => m
  | _ => ""

/-- `Result.fromTry(fn)` from `src/result.ts`: the computation either
returns a value or throws one (`Except.error` models `throw`); on a
throw, `e instanceof Error ? e : new Error(String(e))` becomes the `Err`
payload. -/
def Result.fromTry (fn : Unit → Except JSVal JSVal) : Result JSVal JSVal :=
  match fn () with
  | .ok v => .ok v
  | .error e => .err (if instanceOfError e then e else .errObj (jsString e))

/-- `Result.fromAsync(fn)` from `src/result.ts`: same body as `fromTry`
modulo `await`; a settled promise either fulfills with a value or rejects
with a raised value, modelled by the same `Except`. -/
def Result.fromAsync (fn : Unit → Except JSVal JSVal) : Result JSVal JSVal :=
  match fn () with
  | .ok v => .ok v
  | .error e => .err (if instanceOfError e then e else .errObj (jsString e))

/-- The `for await` loop of `collectStream` from `src/result.ts` over the
finite list of elements the source would yield, with `values` the
accumulator array. Alongside the result it reports how many elements were
requested from the source, so early stopping is observable: each loop
iteration requests exactly one element. -/
def collectStreamGo {T E : Type} (values : List T) :
    List (Result T E) → Result (List T) E × Nat
  | [] => (.ok values, 0)
  | r :: rest =>
    match r with
    | .err e => (.err e, 1)
    | .ok v =>
      let p := collectStreamGo (values ++ [v]) rest
      (p.1, p.2 + 1)

/-- `collectStream(stream)` from `src/result.ts`, paired with the number
of elements requested from the source. -/
def collectStream {T E : Type} (stream : List (Result T E)) :
    Result (List T) E × Nat :=
  collectStreamGo [] stream

/-- `takeUntilErr(stream)` from `src/result.ts`: an async generator that
yields each success value and, on the first `Err`, returns that `Err` as
its terminal value (`return result`); exhaustion without an `Err` returns
`ok(undefined)`. Modelled as the pair of the list of yielded values and
the terminal `Result<void, E>` (`void`/`undefined` as `Unit`). -/
def takeUntilErr {T E : Type} : List (Result T E) → List T × Result Unit E
  | [] => ([], .ok ())
  | r :: rest =>
    match r with
    | .err e => ([], .err e)
    | .ok v =>
      let p := takeUntilErr rest
      (v :: p.1, p.2)

/-! ### Helper lemmas -/

theorem allOk_cons {T E : Type} (r : Result T E) (rs : List (Result T E)) :
    allOk (r :: rs) = (isOk r && allOk rs) := by
  simp [allOk]

theorem errValuesSpec_nil_iff {T E : Type} (rs : List (Result T E)) :
    errValuesSpec rs = [] ↔ allOk rs = true := by
  induction rs with
  | nil => simp [errValuesSpec, allOk]
  | cons r rest ih =>
    cases r with
    | ok v => simpa [errValuesSpec, allOk_cons, isOk] using ih
    | err e => simp [errValuesSpec, allOk_cons, isOk]

theorem okValuesSpec_append {T E : Type} (xs ys : List (Result T E)) :
    okValuesSpec (xs ++ ys) = okValuesSpec xs ++ okValuesSpec ys := by
  induction xs with
  | nil => simp [okValuesSpec]
  | cons r rest ih =>
    cases r with
    | ok v => simp [okValuesSpec, ih]
    | err e => simp [okValuesSpec, ih]

theorem valuesSpec_length {T E : Type} (rs : List (Result T E)) :
    (okValuesSpec rs).length + (errValuesSpec rs).length = rs.length := by
  induction rs with
  | nil => simp [okValuesSpec, errValuesSpec]
  | cons r rest ih =>
    cases r with
    | ok v => simp [okValuesSpec, errValuesSpec]; omega
    | err e => simp [okValuesSpec, errValuesSpec]; omega

theorem firstErrSplit {T E : Type} (rs : List (Result T E)) (h : allOk rs = false) :
    ∃ pre e post, rs = pre ++ Result.err e :: post ∧ allOk pre = true := by
  induction rs with
  | nil => simp [allOk] at h
  | cons r rest ih =>
    cases r with
    | ok v =>
      rw [allOk_cons] at h
      simp [isOk] at h
      obtain ⟨pre, e, post, hsplit, hpre⟩ := ih h
      exact ⟨Result.ok v :: pre, e, post, by simp [hsplit], by simp [allOk_cons, isOk, hpre]⟩
    | err e =>
      exact ⟨[], e, rest, rfl, by simp [allOk]⟩

theorem collectGo_allOk {T E : Type} (rs : List (Result T E)) :
    ∀ values : List T, allOk rs = true →
      collectGo values rs = Result.ok (values ++ okValuesSpec rs) := by
  induction rs with
  | nil => intro values _; simp [collectGo, okValuesSpec]
  | cons r rest ih =>
    intro values h
    cases r with
    | ok v =>
      rw [allOk_cons] at h
      simp [isOk] at h
      rw [collectGo, ih (values ++ [v]) h]
      simp [okValuesSpec]
    | err e =>
      rw [allOk_cons] at h
      simp [isOk] at h

theorem collectGo_err {T E : Type} (pre : List (Result T E)) :
    ∀ (values : List T) (e : E) (post : List (Result T E)), allOk pre = true →
      collectGo values (pre ++ Result.err e :: post) = Result.err e := by
  induction pre with
  | nil => intro values e post _; simp [collectGo]
  | cons r rest ih =>
    intro values e post h
    cases r with
    | ok v =>
      rw [allOk_cons] at h
      simp [isOk] at h
      rw [List.cons_append, collectGo, ih (values ++ [v]) e post h]
    | err e0 =>
      rw [allOk_cons] at h
      simp [isOk] at h

theorem collectAllGo_spec {T E : Type} (rs : List (Result T E)) :
    ∀ (values : List T) (errors : List E),
      collectAllGo values errors rs =
        if (errors ++ errValuesSpec rs).length > 0
          then Result.err (errors ++ errValuesSpec rs)
          else Result.ok (values ++ okValuesSpec rs) := by
  induction rs with
  | nil => intro values errors; simp [collectAllGo, errValuesSpec, okValuesSpec]
  | cons r rest ih =>
    intro values errors
    cases r with
    | ok v =>
      rw [collectAllGo, ih (values ++ [v]) errors]
      simp [okValuesSpec, errValuesSpec]
    | err e =>
      rw [collectAllGo, ih values (errors ++ [e])]
      simp [okValuesSpec, errValuesSpec]

theorem partitionGo_spec {T E : Type} (rs : List (Result T E)) :
    ∀ (okValues : List T) (errValues : List E),
      partitionGo okValues errValues rs =
        ⟨okValues ++ okValuesSpec rs, errValues ++ errValuesSpec rs⟩ := by
  induction rs with
  | nil => intro okValues errValues; simp [partitionGo, okValuesSpec, errValuesSpec]
  | cons r rest ih =>
    intro okValues errValues
    cases r with
    | ok v =>
      rw [partitionGo, ih (okValues ++ [v]) errValues]
      simp [okValuesSpec, errValuesSpec]
    | err e =>
      rw [partitionGo, ih okValues (errValues ++ [e])]
      simp [okValuesSpec, errValuesSpec]

theorem collectStreamGo_allOk {T E : Type} (rs : List (Result T E)) :
    ∀ values : List T, allOk rs = true →
      collectStreamGo values rs = (Result.ok (values ++ okValuesSpec rs), rs.length) := by
  induction rs with
  | nil => intro values _; simp [collectStreamGo, okValuesSpec]
  | cons r rest ih =>
    intro values h
    cases r with
    | ok v =>
      rw [allOk_cons] at h
      simp [isOk] at h
      rw [collectStreamGo]
      simp only [ih (values ++ [v]) h]
      simp [okValuesSpec]
    | err e =>
      rw [allOk_cons] at h
      simp [isOk] at h

theorem collectStreamGo_err {T E : Type} (pre : List (Result T E)) :
    ∀ (values : List T) (e : E) (post : List (Result T E)), allOk pre = true →
      collectStreamGo values (pre ++ Result.err e :: post) =
        (Result.err e, pre.length + 1) := by
  induction pre with
  | nil => intro values e post _; simp [collectStreamGo]
  | cons r rest ih =>
    intro values e post h
    cases r with
    | ok v =>
      rw [allOk_cons] at h
      simp [isOk] at h
      rw [List.cons_append, collectStreamGo]
      simp only [ih (values ++ [v]) e post h]
      simp
    | err e0 =>
      rw [allOk_cons] at h
      simp [isOk] at h

theorem takeUntilErr_allOk {T E : Type} (rs : List (Result T E)) (h : allOk rs = true) :
    takeUntilErr rs = (okValuesSpec rs, Result.ok ()) := by
  induction rs with
  | nil => simp [takeUntilErr, okValuesSpec]
  | cons r rest ih =>
    cases r with
    | ok v =>
      rw [allOk_cons] at h
      simp [isOk] at h
      rw [takeUntilErr]
      simp only [ih h]
      simp [okValuesSpec]
    | err e =>
      rw [allOk_cons] at h
      simp [isOk] at h

theorem takeUntilErr_err {T E : Type} (pre : List (Result T E)) :
    ∀ (e : E) (post : List (Result T E)), allOk pre = true →
      takeUntilErr (pre ++ Result.err e :: post) = (okValuesSpec pre, Result.err e) := by
  induction pre with
  | nil => intro e post _; simp [takeUntilErr, okValuesSpec]
  | cons r rest ih =>
    intro e post h
    cases r with
    | ok v =>
      rw [allOk_cons] at h
      simp [isOk] at h
      rw [List.cons_append, takeUntilErr]
      simp only [ih e post h]
      simp [okValuesSpec]
    | err e0 =>
      rw [allOk_cons] at h
      simp [isOk] at h

theorem errValuesSpec_length_countP {T E : Type} (rs : List (Result T E)) :
    (errValuesSpec rs).length = rs.countP (fun r => !(isOk r)) := by
  induction rs with
  | nil => simp [errValuesSpec]
  | cons r rest ih =>
    cases r with
    | ok v => simp [errValuesSpec, isOk, List.countP_cons, ih]
    | err e => simp [errValuesSpec, isOk, List.countP_cons, ih]

theorem runChain_err {T E : Type} (steps : List (Step T E)) :
    ∀ (e : E) (n : Nat),
      runChain (ResultChain.mk (Result.err e)) n steps =
        (ResultChain.mk (Result.err e), n) := by
  induction steps with
  | nil => intro e n; simp [runChain]
  | cons s rest ih =>
    intro e n
    cases s with
    | mapStep fn =>
      rw [runChain]
      simp [runStep, ResultChain.mapTraced, ih e n]
    | flatMapStep fn =>
      rw [runChain]
      simp [runStep, ResultChain.flatMapTraced, ih e n]

/-! ### Claim theorems -/

/-- Claim C1: `Result.collect(rs)` is `Ok` iff every element of `rs` is
`Ok`; when it is `Ok` its payload is the list of the elements' success
values in input order (empty input gives `Ok []`); when `rs` contains an
`Err` preceded only by `Ok` elements (i.e. the first `Err`), `collect`
returns exactly that `Err`. -/
theorem claim1_collect (T E : Type) (rs : List (Result T E)) :
    ((∃ vs, Result.collect rs = Result.ok vs) ↔ allOk rs = true)
  ∧ (allOk rs = true → Result.collect rs = Result.ok (okValuesSpec rs))
  ∧ Result.collect ([] : List (Result T E)) = Result.ok []
  ∧ (∀ (pre : List (Result T E)) (e : E) (post : List (Result T E)),
      rs = pre ++ Result.err e :: post → allOk pre = true →
      Result.collect rs = Result.err e) := by
  have hok : allOk rs = true → Result.collect rs = Result.ok (okValuesSpec rs) := by
    intro h
    rw [Result.collect, collectGo_allOk rs [] h]
    simp
  refine ⟨⟨?_, ?_⟩, hok, rfl, ?_⟩
  · rintro ⟨vs, hvs⟩
    cases hall : allOk rs with
    | true => rfl
    | false =>
      obtain ⟨pre, e, post, hsplit, hpre⟩ := firstErrSplit rs hall
      rw [Result.collect, hsplit, collectGo_err pre [] e post hpre] at hvs
      exact Result.noConfusion hvs
  · intro h
    exact ⟨okValuesSpec rs, hok h⟩
  · intro pre e post hsplit hpre
    rw [Result.collect, hsplit, collectGo_err pre [] e post hpre]

/-- Witness for C1 at concrete inputs: a list whose first `Err` is `"x"`
collects to `Err "x"`, and an all-`Ok` list collects to the ordered value
list. -/
theorem claim1_collect_witness :
    Result.collect [Result.ok 1, Result.ok 2,
        (Result.err "x" : Result Nat String), Result.ok 3] = Result.err "x"
  ∧ Result.collect ([Result.ok 1, Result.ok 2] : List (Result Nat String))
      = Result.ok [1, 2] :=
  ⟨(claim1_collect Nat String _).2.2.2 [Result.ok 1, Result.ok 2] "x" [Result.ok 3] rfl rfl,
   (claim1_collect Nat String _).2.1 rfl⟩

/-- Claim C2: `Result.collectAll(rs)` is `Err` iff at least one element of
`rs` is `Err`; in that case its payload is exactly the ordered list of all
failure payloads, whose length is the number of `Err` elements; with no
failures it returns `Ok` of all success values in order, and empty input
gives `Ok []`. -/
theorem claim2_collectAll (T E : Type) (rs : List (Result T E)) :
    ((∃ es, Result.collectAll rs = Result.err es) ↔ allOk rs = false)
  ∧ (allOk rs = false → Result.collectAll rs = Result.err (errValuesSpec rs))
  ∧ (allOk rs = true → Result.collectAll rs = Result.ok (okValuesSpec rs))
  ∧ (errValuesSpec rs).length = rs.countP (fun r => !(isOk r))
  ∧ Result.collectAll ([] : List (Result T E)) = Result.ok [] := by
  have hmain := collectAllGo_spec rs ([] : List T) ([] : List E)
  simp only [List.nil_append] at hmain
  have herr : allOk rs = false → Result.collectAll rs = Result.err (errValuesSpec rs) := by
    intro h
    have hne : errValuesSpec rs ≠ [] := by
      intro hnil
      rw [(errValuesSpec_nil_iff rs).mp hnil] at h
      exact Bool.noConfusion h
    have hlen : (errValuesSpec rs).length > 0 := List.length_pos.mpr hne
    rw [Result.collectAll, hmain, if_pos hlen]
  have hok : allOk rs = true → Result.collectAll rs = Result.ok (okValuesSpec rs) := by
    intro h
    have hnil : errValuesSpec rs = [] := (errValuesSpec_nil_iff rs).mpr h
    rw [Result.collectAll, hmain, hnil]
    simp
  refine ⟨⟨?_, ?_⟩, herr, hok, errValuesSpec_length_countP rs, rfl⟩
  · rintro ⟨es, hes⟩
    cases hall : allOk rs with
    | false => rfl
    | true =>
      rw [hok hall] at hes
      exact Result.noConfusion hes
  · intro h
    exact ⟨errValuesSpec rs, herr h⟩

/-- Witness for C2 at concrete inputs: a list with failures `"x"`, `"y"`
accumulates exactly `Err ["x", "y"]`, and an all-`Ok` list gives `Ok` of
its values. -/
theorem claim2_collectAll_witness :
    Result.collectAll [Result.ok 1, (Result.err "x" : Result Nat String),
        Result.ok 2, Result.err "y"] = Result.err ["x", "y"]
  ∧ Result.collectAll ([Result.ok 1, Result.ok 2] : List (Result Nat String))
      = Result.ok [1, 2] :=
  ⟨(claim2_collectAll Nat String _).2.1 rfl, (claim2_collectAll Nat String _).2.2.1 rfl⟩

/-- Claim C8: `Result.partition(rs)` is total (it never fails) and returns
the ordered list of success values and the ordered list of failure
payloads, with the two lengths summing to the input length; this includes
the cases where either list (or the input) is empty. -/
theorem claim8_partition (T E : Type) (rs : List (Result T E)) :
    Result.partition rs = ⟨okValuesSpec rs, errValuesSpec rs⟩
  ∧ (Result.partition rs).ok.length + (Result.partition rs).err.length = rs.length := by
  have h : Result.partition rs = ⟨okValuesSpec rs, errValuesSpec rs⟩ := by
    rw [Result.partition, partitionGo_spec rs [] []]
    simp
  refine ⟨h, ?_⟩
  rw [h]
  exact valuesSpec_length rs

/-- Claim C3: on a chain holding `Err e`, `map` returns a wrapper still
holding `Err e` untouched without invoking its function (the instrumented
call counter does not move), `flatMap` likewise; and a whole chain of
`map`/`flatMap` steps starting from (or, by the last conjunct, reaching)
a failure invokes no transformation function at all and leaves the error
unchanged. -/
theorem claim3_short_circuit (T E U : Type) (e : E) :
    (∀ fn : T → U,
      (ResultChain.mk (Result.err e)).map fn = ResultChain.mk (Result.err e))
  ∧ (∀ (fn : T → U) (n : Nat),
      (ResultChain.mk (Result.err e)).mapTraced fn n = (ResultChain.mk (Result.err e), n))
  ∧ (∀ fn : T → Result U E,
      (ResultChain.mk (Result.err e)).flatMap fn = ResultChain.mk (Result.err e))
  ∧ (∀ (fn : T → Result U E) (n : Nat),
      (ResultChain.mk (Result.err e)).flatMapTraced fn n
        = (ResultChain.mk (Result.err e), n))
  ∧ (∀ (c : ResultChain T E) (n : Nat) (steps : List (Step T E)),
      c.data = Result.err e → runChain c n steps = (c, n)) := by
  refine ⟨fun fn => rfl, fun fn n => rfl, fun fn => rfl, fun fn n => rfl, ?_⟩
  intro c n steps hc
  obtain ⟨d⟩ := c
  have hd : d = Result.err e := hc
  subst hd
  exact runChain_err steps e n

/-- Witness for C3 at concrete inputs: a two-step `map`/`flatMap` chain on
`Err "boom"` keeps the error and a call count of zero. -/
theorem claim3_short_circuit_witness :
    runChain (ResultChain.mk (Result.err "boom") : ResultChain Nat String) 0
        [Step.mapStep (fun t => t + 1), Step.flatMapStep (fun t => Result.ok (t * 2))]
      = (ResultChain.mk (Result.err "boom"), 0) :=
  (claim3_short_circuit Nat String Nat "boom").2.2.2.2
    (ResultChain.mk (Result.err "boom")) 0
    [Step.mapStep (fun t => t + 1), Step.flatMapStep (fun t => Result.ok (t * 2))] rfl

/-- Claim C4: `ResultChain.unwrap` returns the success value on `Ok` and
on `Err e` throws the held error value `e` itself (not a wrapping error);
`OptionChain.unwrap` on `None` throws the fixed generic message
`"Attempted to unwrap None"`; `unwrapOr` and `unwrapOrElse` are total
(they never throw) and return the success value or the default / the
function applied to the error (no argument on the Option side). -/
theorem claim4_unwrap (T E : Type) (v : T) (e : E) (d : T) (fn : E → T) (g : Unit → T) :
    (ResultChain.mk (Result.ok v) : ResultChain T E).unwrap = Except.ok v
  ∧ (ResultChain.mk (Result.err e) : ResultChain T E).unwrap = Except.error e
  ∧ (OptionChain.mk (Option.none : Option T)).unwrap
      = Except.error "Attempted to unwrap None"
  ∧ (OptionChain.mk (Option.some v)).unwrap = Except.ok v
  ∧ (ResultChain.mk (Result.ok v) : ResultChain T E).unwrapOr d = v
  ∧ (ResultChain.mk (Result.err e) : ResultChain T E).unwrapOr d = d
  ∧ (ResultChain.mk (Result.ok v) : ResultChain T E).unwrapOrElse fn = v
  ∧ (ResultChain.mk (Result.err e) : ResultChain T E).unwrapOrElse fn = fn e
  ∧ (OptionChain.mk (Option.some v)).unwrapOr d = v
  ∧ (OptionChain.mk (Option.none : Option T)).unwrapOr d = d
  ∧ (OptionChain.mk (Option.some v)).unwrapOrElse g = v
  ∧ (OptionChain.mk (Option.none : Option T)).unwrapOrElse g = g () :=
  ⟨rfl, rfl, rfl, rfl, rfl, rfl, rfl, rfl, rfl, rfl, rfl, rfl⟩

/-- Claim C5: `Result.fromTry` (and identically `Result.fromAsync`) wraps
a normal return `v` as `Ok v`; a raised value that is already an `Error`
instance is passed through as-is as the `Err` payload; any other raised
value is coerced to `new Error(String(e))`, so raising the number `42`
gives message `"42"`, raising `null` gives `"null"`, and raising
`undefined` gives `"undefined"`. -/
theorem claim5_fromTry (v e : JSVal) (m : String) (h : instanceOfError e = false) :
    Result.fromTry (fun _ => Except.ok v) = Result.ok v
  ∧ Result.fromTry (fun _ => Except.error (JSVal.errObj m)) = Result.err (JSVal.errObj m)
  ∧ Result.fromTry (fun _ => Except.error e) = Result.err (JSVal.errObj (jsString e))
  ∧ errMessage (JSVal.errObj (jsString e)) = jsString e
  ∧ Result.fromTry (fun _ => Except.error (JSVal.num 42)) = Result.err (JSVal.errObj "42")
  ∧ Result.fromTry (fun _ => Except.error JSVal.null) = Result.err (JSVal.errObj "null")
  ∧ Result.fromTry (fun _ => Except.error JSVal.undef)
      = Result.err (JSVal.errObj "undefined")
  ∧ Result.fromAsync (fun _ => Except.ok v) = Result.ok v
  ∧ Result.fromAsync (fun _ => Except.error (JSVal.errObj m)) = Result.err (JSVal.errObj m)
  ∧ Result.fromAsync (fun _ => Except.error e) = Result.err (JSVal.errObj (jsString e))
  ∧ Result.fromAsync (fun _ => Except.error (JSVal.num 42))
      = Result.err (JSVal.errObj "42") := by
  refine ⟨rfl, rfl, ?_, rfl, by decide, rfl, rfl, rfl, rfl, ?_, by decide⟩
  · simp [Result.fromTry, h]
  · simp [Result.fromAsync, h]

/-- Witness for C5 at a concrete input: the boolean `true` is not an
`Error` instance, and raising it yields an error with message `"true"`. -/
theorem claim5_fromTry_witness :
    instanceOfError (JSVal.bool true) = false
  ∧ Result.fromTry (fun _ => Except.error (JSVal.bool true))
      = Result.err (JSVal.errObj "true") :=
  ⟨rfl, (claim5_fromTry (JSVal.num 0) (JSVal.bool true) "boom" rfl).2.2.1⟩

/-- Claim C6: `collectStream` consumes the stream sequentially, appending
each success value in arrival order; if the stream has a first `Err` (all
elements before it `Ok`), it resolves to that `Err` having requested
exactly the preceding successes plus the `Err` itself — no later element
of the source is ever requested; a stream with no `Err` resolves to `Ok`
of all values, and an empty stream to `Ok []`. -/
theorem claim6_collectStream (T E : Type) (rs pre post : List (Result T E)) (e : E) :
    (allOk rs = true → collectStream rs = (Result.ok (okValuesSpec rs), rs.length))
  ∧ (allOk pre = true →
      collectStream (pre ++ Result.err e :: post) = (Result.err e, pre.length + 1))
  ∧ collectStream ([] : List (Result T E)) = (Result.ok [], 0) := by
  refine ⟨?_, ?_, rfl⟩
  · intro h
    rw [collectStream, collectStreamGo_allOk rs [] h]
    simp
  · intro h
    rw [collectStream, collectStreamGo_err pre [] e post h]

/-- Witness for C6 at a concrete input: on
`ok 1, ok 2, err "x", ok 3` the collector resolves to `Err "x"` after
requesting only three elements — the trailing `ok 3` is never pulled. -/
theorem claim6_collectStream_witness :
    collectStream [Result.ok 1, Result.ok 2,
        (Result.err "x" : Result Nat String), Result.ok 3] = (Result.err "x", 3) :=
  (claim6_collectStream Nat String [] [Result.ok 1, Result.ok 2] [Result.ok 3] "x").2.1 rfl

/-- Claim C7: on a stream whose first `Err e` is preceded by successes
`v1..vk`, `takeUntilErr` yields exactly `v1..vk` in arrival order and
terminates with `Err e` as the generator's terminal return value
(transported, not thrown); nothing after the first `Err` is yielded. -/
theorem claim7_takeUntilErr (T E : Type) (pre post : List (Result T E)) (e : E)
    (h : allOk pre = true) :
    takeUntilErr (pre ++ Result.err e :: post) = (okValuesSpec pre, Result.err e) :=
  takeUntilErr_err pre e post h

/-- Witness for C7 at a concrete input: on `ok 1, ok 2, err "x", ok 3`
the generator yields `1, 2` and returns `Err "x"`. -/
theorem claim7_takeUntilErr_witness :
    takeUntilErr [Result.ok 1, Result.ok 2,
        (Result.err "x" : Result Nat String), Result.ok 3] = ([1, 2], Result.err "x") :=
  claim7_takeUntilErr Nat String [Result.ok 1, Result.ok 2] [Result.ok 3] "x" rfl

/-- Claim C9: when the source is exhausted without an `Err`,
`takeUntilErr` yields every success value in arrival order and its
terminal result is `Ok` of `undefined` (here `Unit`), the
clean-exhaustion terminal value. -/
theorem claim9_takeUntilErr_exhausted (T E : Type) (rs : List (Result T E))
    (h : allOk rs = true) :
    takeUntilErr rs = (okValuesSpec rs, Result.ok ()) :=
  takeUntilErr_allOk rs h

/-- Witness for C9 at a concrete input: an all-`Ok` stream yields all its
values and returns `Ok ()`. -/
theorem claim9_takeUntilErr_exhausted_witness :
    takeUntilErr ([Result.ok 1, Result.ok 2] : List (Result Nat String))
      = ([1, 2], Result.ok ()) :=
  claim9_takeUntilErr_exhausted Nat String [Result.ok 1, Result.ok 2] rfl

/-- Claim C10: presence in an `Option` is decided solely by the tag: for
every value `v` (including the JavaScript `undefined` and `null` values),
`some v` is a `Some` holding exactly `v` with `isSome (some v) = true`,
while `isSome none = false` — so `some undefined` and `none` are
distinguishable at the public interface. -/
theorem claim10_option_tag (T : Type) (v : T) :
    isSome (some v) = true
  ∧ isSome (none : Option T) = false
  ∧ some v ≠ (none : Option T)
  ∧ (∀ w : T, some v = some w → v = w) := by
  refine ⟨rfl, rfl, ?_, ?_⟩
  · intro hcon
    simp [some, none] at hcon
  · intro w hw
    simpa [some] using hw

/-- Witness for C10 at the JavaScript values: `some undefined` and
`some null` are present, `none` is not, and `some undefined ≠ none`. -/
theorem claim10_option_tag_witness :
    isSome (some JSVal.undef) = true
  ∧ isSome (some JSVal.null) = true
  ∧ isSome (none : Option JSVal) = false
  ∧ some JSVal.undef ≠ (none : Option JSVal)
  ∧ JSVal.null = JSVal.null :=
  ⟨(claim10_option_tag JSVal JSVal.undef).1,
   (claim10_option_tag JSVal JSVal.null).1,
   (claim10_option_tag JSVal JSVal.undef).2.1,
   (claim10_option_tag JSVal JSVal.undef).2.2.1,
   (claim10_option_tag JSVal JSVal.null).2.2.2 JSVal.null rfl⟩

end JS
